import Mathlib

/-!
Verification of `orgmodeparser.py` (MC-6312/orgmodeparser), a minimal parser for
Emacs Org Mode files.  The Python source is shallowly embedded below: strings
become `List Char`, the lazy token iterator `OrgParseIter.__next__` becomes a
per-line token-burst function threaded over the list of input lines, the
recursive tree builder `parse_block` becomes a fuel-indexed recursive function
over the token list, and the serializer `dumps` becomes a recursive render
function.  Fallible code (the out-of-range string index reachable in the
directive scanner) is modelled with `Except Unit`.
-/

/-! ## Python string primitives

These mirror the `str` methods used by the source.  `pyIsSpace` covers the six
ASCII whitespace characters recognised by `str.isspace` (the inputs considered
in this development are ASCII; non-ASCII Unicode whitespace is outside the
modelled character set). -/

def pyIsSpace (c : Char) : Bool :=
  c = ' ' || c = '\t' || c = '\n' || c = '\x0b' || c = '\x0c' || c = '\r'

/-- `str.rstrip()`: remove trailing whitespace. -/
def pyRstrip (l : List Char) : List Char :=
  (l.reverse.dropWhile pyIsSpace).reverse

/-- Leading-whitespace removal (the leading half of `str.strip()`). -/
def pyLstrip (l : List Char) : List Char := l.dropWhile pyIsSpace

/-- `str.strip()`: remove leading and trailing whitespace. -/
def pyStrip (l : List Char) : List Char := pyRstrip (pyLstrip l)

/-- Is every character whitespace? (`\s*$` applied to a whole remainder). -/
def allWs (l : List Char) : Bool := l.all pyIsSpace

/-- `str.find(c, start)`: index of the first occurrence of `c` at or after
`start`, or `none` where Python returns `-1`. -/
def pyFindFrom (l : List Char) (c : Char) (start : Nat) : Option Nat :=
  ((l.drop start).findIdx? (· == c)).map (· + start)

/-- `str.split(sep)` for a one-character separator: `n` separators yield
`n + 1` parts, empty parts preserved. -/
def pySplitOn (sep : Char) : List Char → List (List Char)
  | [] => [[]]
  | c :: t =>
    let r := pySplitOn sep t
    if c = sep then [] :: r
    else
      match r with
      | [] => [[c]]
      | p :: ps => (c :: p) :: ps

/-! ## `OrgHeadlineNode.__init__`: the headline pattern

The source matches the raw title once against the anchored pattern
`^((TODO|DONE)?\s+)?(\[#(A|B|C)\]\s+)?(.*?)?(:(\S*):)?\s*$` (re.match, which
always succeeds on newline-free lines since every group is optional).  The
functions below resolve the backtracking of that pattern deterministically:
the optional prefix groups are greedy and the remainder of the pattern can
always match, so they commit on first success; the lazy `(.*?)` grows from the
shortest prefix, preferring the tag group over the empty alternative at each
split point; the greedy `\S*` inside `(:(\S*):)` followed by `:` and `\s*$`
succeeds exactly when the maximal non-space run after the opening colon is
nonempty, ends in `:`, and is followed only by whitespace. -/

/-- Does the list start with a whitespace character? (`\s` lookahead used for
the mandatory `\s+` after a keyword or priority cookie). -/
def wsHead (l : List Char) : Bool :=
  match l.head? with
  | some c => pyIsSpace c
  | none => false

/-- Group `((TODO|DONE)?\s+)?`: returns group 2 as `some false` for `TODO`
(`done=False`), `some true` for `DONE` (`done=True`), `none` otherwise, and
the remainder after the greedy `\s+`. -/
def kwSplit (t : List Char) : Option Bool × List Char :=
  if t.take 4 = "TODO".toList && wsHead (t.drop 4) then
    (some false, pyLstrip (t.drop 4))
  else if t.take 4 = "DONE".toList && wsHead (t.drop 4) then
    (some true, pyLstrip (t.drop 4))
  else if wsHead t then (none, pyLstrip t)
  else (none, t)

/-- Group `(\[#(A|B|C)\]\s+)?`: the optional priority cookie. -/
def priSplit (t : List Char) : Option Char × List Char :=
  match t with
  | '[' :: '#' :: p :: ']' :: rest =>
    if (p = 'A' || p = 'B' || p = 'C') && wsHead rest then
      (some p, pyLstrip rest)
    else (none, '[' :: '#' :: p :: ']' :: rest)
  | _ => (none, t)

/-- Maximal run of non-whitespace characters (`\S*`, before backtracking). -/
def nonspaceRun (t : List Char) : List Char := t.takeWhile (fun c => ! pyIsSpace c)

/-- `(:(\S*):)\s*$` anchored at this exact position: `some w` returns group 7.
The greedy `\S*` can only succeed by taking the maximal non-space run minus
its final `:` (any shorter take leaves a non-space character before `\s*$`). -/
def tagGroup (t : List Char) : Option (List Char) :=
  match t with
  | ':' :: t1 =>
    let r := nonspaceRun t1
    if !r.isEmpty && r.getLast? == some ':' && allWs (t1.drop r.length) then
      some r.dropLast
    else none
  | _ => none

/-- The lazy `(.*?)?(:(\S*):)?\s*$`: shortest prefix for group 5 such that the
rest of the pattern matches, preferring the tag group at each split point.
Returns (group 5, group 7). -/
def splitTitleTags : List Char → List Char × Option (List Char)
  | [] => ([], none)
  | c :: t1 =>
    match tagGroup (c :: t1) with
    | some w => ([], some w)
    | none =>
      if allWs (c :: t1) then ([], none)
      else
        let r := splitTitleTags t1
        (c :: r.1, r.2)

/-- The fields extracted by `OrgHeadlineNode.__init__`: `done`, `priority`,
`tags` (group 7 split on `:`, empty parts kept), and the stripped group 5 as
the node text. -/
structure HeadFields where
  done : Option Bool
  priority : Option Char
  text : List Char
  tags : List (List Char)
deriving DecidableEq, Repr

/-- `OrgHeadlineNode.__init__` applied to a raw title. -/
def orgHeadlineFields (text : List Char) : HeadFields :=
  let d := kwSplit text
  let p := priSplit d.2
  let g := splitTitleTags p.2
  { done := d.1
    priority := p.1
    text := pyStrip g.1
    tags :=
      match g.2 with
      | some w => pySplitOn ':' w
      | none => [] }

/-- `':'.join(tags)`. -/
def joinColon : List (List Char) → List Char
  | [] => []
  | [x] => x
  | x :: xs => x ++ ':' :: joinColon xs

/-- `OrgHeadlineNode.__str__`: keyword, priority cookie, text, re-joined tag
group (the tag group is emitted only when the tag list is nonempty, matching
Python's truthiness test on the list). -/
def strHeadline (h : HeadFields) : List Char :=
  (match h.done with
   | none => []
   | some false => "TODO ".toList
   | some true => "DONE ".toList)
  ++ (match h.priority with
      | none => []
      | some p => '[' :: '#' :: p :: ']' :: [' '])
  ++ h.text
  ++ (match h.tags with
      | [] => []
      | ts => ' ' :: ':' :: (joinColon ts ++ [':']))

/-! ## `OrgParseIter`: the tokenizer

`OrgParseIter.__next__` first drains the `hold` buffer (popping from the end),
otherwise pulls and `rstrip`s the next line and scans it.  Every branch that
returns a token also sets `bufpos = buflen`, so each line is consumed whole by
the group of calls it feeds: the call that reads the line returns one token
immediately and stacks the deferred ones on `hold`, and subsequent calls pop
`hold` until it is empty before the next line is pulled.  `lineTokens` below
produces exactly that group, in emission order (the immediately returned token
first, then the `hold` entries popped from the end, i.e. reversed).  The
out-of-range read of `buf[1]` reachable on the one-character line `"#"`
(the guard `bufpos < buflen + 3` on line 325 of the source never fails, so it
does not protect the index) is modelled as `Except.error ()`. -/

/-- `TokenInfo`: token type (one of the five kinds), originating line number,
and value. `HLEXIT` carries no value. -/
inductive TokenInfo where
  | headline (line : Nat) (value : List Char)
  | hlexit (line : Nat)
  | text (line : Nat) (value : List Char)
  | comment (line : Nat) (value : List Char)
  | directive (line : Nat) (value : List Char)
deriving DecidableEq, Repr

/-- Result of scanning one line: the emitted token group and the tokenizer's
nesting level afterwards. -/
structure LineOut where
  toks : List TokenInfo
  level : Nat
deriving DecidableEq, Repr

/-- `__skip_space`: `while bufpos < buflen and buf[bufpos].isspace(): bufpos += 1`.
The loop lands exactly past the whitespace run starting at `pos` (reads past
the end never occur: the loop stops at `buflen`, i.e. where `drop pos` ends). -/
def skipSpace (buf : List Char) (pos : Nat) : Nat :=
  pos + ((buf.drop pos).takeWhile pyIsSpace).length

/-- The character set of `__is_ctl_word`. -/
def ctlChars : List Char := "_ABCDEFGHIJKLMNOPQRSTUVWXYZ".toList

/-- `__is_ctl_word(frompos, topos)`: every character of `buf[frompos:topos]`
is in `'_ABCDEFGHIJKLMNOPQRSTUVWXYZ'`.  (The loop indexes `buf[frompos]` for
`frompos < topos`; its callers pass `topos = colonpos < buflen`, so the
indexing is in range and equals the slice traversal.) -/
def isCtlWord (buf : List Char) (frompos topos : Nat) : Bool :=
  ((buf.drop frompos).take (topos - frompos)).all (fun c => ctlChars.contains c)

/-- The run of `'*'` counted by `while bufpos < buflen and buf[bufpos] == '*'`. -/
def starRun (buf : List Char) : Nat := (buf.takeWhile (· == '*')).length

/-- The token group `OrgParseIter.__next__` emits for one (already
`rstrip`-ed) line `buf`, given the current nesting level.  Tokens appear in
emission order: the token returned by the reading call first, then the `hold`
buffer popped from the end (hence `hold.reverse`). -/
def lineTokens (lineno level : Nat) (buf : List Char) : Except Unit LineOut :=
  -- lines 260-261: an empty line is a TEXT token with empty value
  if buf.isEmpty then .ok ⟨[.text lineno []], level⟩
  else if buf.head? == some '*' then
    -- line 280: count the marker run
    let r := starRun buf
    match buf.get? r with
    | some c =>
      if pyIsSpace c then
        -- lines 288-297: a heading; the level may grow by at most 1 but
        -- shrink by any amount
        let oldlevel := level
        let newlevel := if r > level then level + 1 else if r < level then r else level
        let p := skipSpace buf r
        let headtkn := TokenInfo.headline lineno (buf.drop p)
        if newlevel ≤ oldlevel then
          -- lines 304-314: the heading is stacked first, then one HLEXIT per
          -- level of difference; one further HLEXIT is returned immediately
          let hold := [headtkn] ++ List.replicate (oldlevel - newlevel) (TokenInfo.hlexit lineno)
          .ok ⟨TokenInfo.hlexit lineno :: hold.reverse, newlevel⟩
        else
          .ok ⟨[headtkn], newlevel⟩
      else
        -- lines 283-286: a run not followed by whitespace is plain TEXT
        .ok ⟨[.text lineno buf], level⟩
    | none =>
      -- bufpos >= buflen after the run: also plain TEXT
      .ok ⟨[.text lineno buf], level⟩
  else if buf.head? == some '#' then
    -- lines 318-353: comment or directive; bufpos = bufpos0 = 1 here
    if 1 < buf.length + 3 then
      match buf.get? 1 with
      | none =>
        -- line 325 reads buf[1]: IndexError on the one-character line "#"
        .error ()
      | some c =>
        if c = '+' then
          -- lines 326-342: the while-True loop body runs at most once, since
          -- every branch either breaks (falling back to comment) or returns
          if 2 ≥ buf.length then
            .ok ⟨[.comment lineno (buf.drop (skipSpace buf 1))], level⟩
          else
            match pyFindFrom buf ':' 2 with
            | none => .ok ⟨[.comment lineno (buf.drop (skipSpace buf 1))], level⟩
            | some colonpos =>
              if isCtlWord buf 2 colonpos then
                -- lines 338-342: DIRECTIVE returned first, TEXT held
                .ok ⟨[.directive lineno ((buf.drop 2).take (colonpos - 2)),
                      .text lineno (pyStrip (buf.drop (colonpos + 1)))], level⟩
              else .ok ⟨[.comment lineno (buf.drop (skipSpace buf 1))], level⟩
        else .ok ⟨[.comment lineno (buf.drop (skipSpace buf 1))], level⟩
    else
      -- dead branch (1 < buflen + 3 always holds); kept for fidelity
      .ok ⟨[.comment lineno (buf.drop (skipSpace buf 1))], level⟩
  else
    -- lines 347-353: any other line is TEXT, whole content
    .ok ⟨[.text lineno buf], level⟩

/-- The full token stream for a list of raw lines, starting from the given
level and line counter (`OrgParseIter` starts both at 0; `lineno` is
incremented before a line's tokens are produced).  The `hold` buffer is empty
whenever a new line is pulled — each burst is drained before the next read —
so the stream is the concatenation of the per-line bursts; on exhaustion the
iterator raises `StopIteration` with an empty hold, ending the stream. -/
def tokenizeLines : List (List Char) → Nat → Nat → Except Unit (List TokenInfo)
  | [], _, _ => .ok []
  | raw :: rest, level, lineno =>
    match lineTokens (lineno + 1) level (pyRstrip raw) with
    | .error e => .error e
    | .ok out =>
      match tokenizeLines rest out.level (lineno + 1) with
      | .error e => .error e
      | .ok toks => .ok (out.toks ++ toks)

/-! ## The node tree and `MinimalOrgParser`

`parse_block(destnode, level)` loops over the shared token iterator, appending
children to `destnode.children` in order; a `HEADLINE` token appends a new
`OrgHeadlineNode` and recurses into it, `HLEXIT` breaks the loop (returning to
the caller's frame), `DIRECTIVE` only records the pending name (`prefix`,
`dname`), and `TEXT` appends a `DirectiveNode` when a name is pending (then
clears it) or a plain `TextNode`.  The `prefix` state is NOT reset when a
recursive call returns, nor by a `COMMENT` token — the embedding keeps that
behaviour.  Appending to `children` in loop order is rendered here as building
the returned child list front to back; the unconsumed remainder of the token
list is returned to the caller frame.  The recursion is fuel-indexed purely
for termination; `tokens.length + 1` fuel always suffices (proved below). -/

/-- The node model: `OrgHeadlineNode`, `OrgTextNode`, `OrgCommentNode`,
`OrgDirectiveNode`.  All node kinds carry a `children` list (the Python base
class `OrgNode` gives every node one), though the parser only ever populates
it on headline nodes and the root. -/
inductive OrgNode where
  | headline (fields : HeadFields) (children : List OrgNode)
  | textNode (value : List Char) (children : List OrgNode)
  | commentNode (value : List Char) (children : List OrgNode)
  | directiveNode (name : List Char) (value : List Char) (children : List OrgNode)
deriving Repr

/-- `parse_block`: returns (children appended to the current destination,
remaining tokens after the frame ends).  `pending` models the `prefix`/`dname`
pair (`some dname` iff `prefix == DIRECTIVE`). -/
def parseBlock : Nat → List TokenInfo → Option (List Char) → List OrgNode × List TokenInfo
  | 0, toks, _ => ([], toks)
  | _ + 1, [], _ => ([], [])
  | fuel + 1, TokenInfo.headline _ v :: rest, pending =>
    let sub := parseBlock fuel rest none
    let cont := parseBlock fuel sub.2 pending
    (OrgNode.headline (orgHeadlineFields v) sub.1 :: cont.1, cont.2)
  | _ + 1, TokenInfo.hlexit _ :: rest, _ => ([], rest)
  | fuel + 1, TokenInfo.comment _ v :: rest, pending =>
    let cont := parseBlock fuel rest pending
    (OrgNode.commentNode v [] :: cont.1, cont.2)
  | fuel + 1, TokenInfo.directive _ n :: rest, _ => parseBlock fuel rest (some n)
  | fuel + 1, TokenInfo.text _ v :: rest, pending =>
    let node := match pending with
                | some dn => OrgNode.directiveNode dn v []
                | none => OrgNode.textNode v []
    let cont := parseBlock fuel rest none
    (node :: cont.1, cont.2)

/-- `MinimalOrgParser.__init__` on the lines of the file: tokenize (level and
line counter start at 0), build the root's children with `parse_block(self, 0)`
(the `StopIteration` at exhaustion is absorbed as normal completion); a
tokenizer error propagates out of the constructor. -/
def parseOrg (lines : List (List Char)) : Except Unit (List OrgNode) :=
  match tokenizeLines lines 0 0 with
  | .error e => .error e
  | .ok toks => .ok (parseBlock (toks.length + 1) toks none).1

/-- Per-kind `__str__` rendering: `OrgTextNode` is its text, `OrgCommentNode`
is `'# %s'`, `OrgDirectiveNode` is `'#+%s: %s'`, `OrgHeadlineNode` re-joins
keyword, priority and tags (the `*` markers are added by the serializer). -/
def strNode : OrgNode → List Char
  | .headline f _ => strHeadline f
  | .textNode v _ => v
  | .commentNode v _ => '#' :: ' ' :: v
  | .directiveNode n v _ => '#' :: '+' :: (n ++ ':' :: ' ' :: v)

/-- The `children` field shared by all node kinds. -/
def nodeChildren : OrgNode → List OrgNode
  | .headline _ cs => cs
  | .textNode _ cs => cs
  | .commentNode _ cs => cs
  | .directiveNode _ _ cs => cs

/-- `isinstance(child, OrgHeadlineNode)`. -/
def nodeIsHeadline : OrgNode → Bool
  | .headline _ _ => true
  | _ => false

/-- `'\n'.join(buf)`. -/
def joinNl : List (List Char) → List Char
  | [] => []
  | [x] => x
  | x :: xs => x ++ '\n' :: joinNl xs

/-- `MinimalOrgParser.__dumps_node(node, level)`'s `buf` list: for each child,
one entry with the marker-run prefix (headline nodes only) and `str(child)`,
followed — when the child has children — by one entry holding the whole
already-joined sub-block. -/
def dumpsEntries : List OrgNode → Nat → List (List Char)
  | [], _ => []
  | OrgNode.headline f kids :: cs, level =>
    ((List.replicate level '*' ++ [' ']) ++ strHeadline f) ::
    ((if kids.isEmpty then [] else [joinNl (dumpsEntries kids (level + 1))]) ++
      dumpsEntries cs level)
  | OrgNode.textNode v kids :: cs, level =>
    v :: ((if kids.isEmpty then [] else [joinNl (dumpsEntries kids (level + 1))]) ++
      dumpsEntries cs level)
  | OrgNode.commentNode v kids :: cs, level =>
    ('#' :: ' ' :: v) ::
    ((if kids.isEmpty then [] else [joinNl (dumpsEntries kids (level + 1))]) ++
      dumpsEntries cs level)
  | OrgNode.directiveNode n v kids :: cs, level =>
    ('#' :: '+' :: (n ++ ':' :: ' ' :: v)) ::
    ((if kids.isEmpty then [] else [joinNl (dumpsEntries kids (level + 1))]) ++
      dumpsEntries cs level)

/-- `MinimalOrgParser.dumps(level)` over the root's children. -/
def dumps (children : List OrgNode) (level : Nat) : List Char :=
  joinNl (dumpsEntries children level)

/-- The whole user-visible pipeline: parse the lines, render at the given
starting depth. -/
def minimalOrgDumps (lines : List (List Char)) (level : Nat) : Except Unit (List Char) :=
  match parseOrg lines with
  | .error e => .error e
  | .ok ns => .ok (dumps ns level)

/-- Is the token a `SubtreeClose` (`HLEXIT`)? -/
def isHlexitTok : TokenInfo → Bool
  | .hlexit _ => true
  | _ => false

/-! ## Specification-side artifacts for the round-trip law

`dumpsFlat` is the flat line list of a rendered tree (no nested joining);
`renderToks` maps a token stream back to source lines, tracking the nesting
level; `CT` singles out the well-formed token streams the canonical inputs
produce; `canonLineNext`/`canonLines` delimit the canonical recognized subset
of input lines, threading the heading-level discipline.  These do not embed
source code; they state the property the round-trip theorem proves about the
embedded `tokenizeLines`/`parseBlock`/`dumps`. -/

/-- The individual rendered lines of `dumps`, without the nested joining. -/
def dumpsFlat : List OrgNode → Nat → List (List Char)
  | [], _ => []
  | OrgNode.headline f kids :: cs, level =>
    ((List.replicate level '*' ++ [' ']) ++ strHeadline f) ::
      (dumpsFlat kids (level + 1) ++ dumpsFlat cs level)
  | OrgNode.textNode v kids :: cs, level =>
    v :: (dumpsFlat kids (level + 1) ++ dumpsFlat cs level)
  | OrgNode.commentNode v kids :: cs, level =>
    ('#' :: ' ' :: v) :: (dumpsFlat kids (level + 1) ++ dumpsFlat cs level)
  | OrgNode.directiveNode n v kids :: cs, level =>
    ('#' :: '+' :: (n ++ ':' :: ' ' :: v)) :: (dumpsFlat kids (level + 1) ++ dumpsFlat cs level)

/-- Render a token stream back to lines, tracking the current level: a
Heading token opens level `lvl + 1`, a SubtreeClose returns one level, a
Directive/Text pair renders as one directive line. -/
def renderToks : List TokenInfo → Nat → List (List Char)
  | [], _ => []
  | TokenInfo.headline _ v :: ts, lvl =>
    (List.replicate (lvl + 1) '*' ++ ' ' :: strHeadline (orgHeadlineFields v)) ::
      renderToks ts (lvl + 1)
  | TokenInfo.hlexit _ :: ts, lvl => renderToks ts (lvl - 1)
  | TokenInfo.text _ v :: ts, lvl => v :: renderToks ts lvl
  | TokenInfo.comment _ v :: ts, lvl => ('#' :: ' ' :: v) :: renderToks ts lvl
  | TokenInfo.directive _ n :: TokenInfo.text _ v :: ts, lvl =>
    ('#' :: '+' :: (n ++ ':' :: ' ' :: v)) :: renderToks ts lvl
  | TokenInfo.directive _ _ :: ts, lvl => renderToks ts lvl

/-- Canonical token streams at a given level: Directive tokens are paired
with their Text, Heading values render back to themselves, and SubtreeClose
only appears at positive level (each one returns exactly one level). -/
inductive CT : Nat → List TokenInfo → Prop
  | nil (lvl : Nat) : CT lvl []
  | text (lvl ln : Nat) (v : List Char) (ts : List TokenInfo) :
      CT lvl ts → CT lvl (.text ln v :: ts)
  | comment (lvl ln : Nat) (v : List Char) (ts : List TokenInfo) :
      CT lvl ts → CT lvl (.comment ln v :: ts)
  | directive (lvl ln ln2 : Nat) (n v : List Char) (ts : List TokenInfo) :
      CT lvl ts → CT lvl (.directive ln n :: .text ln2 v :: ts)
  | headline (lvl ln : Nat) (v : List Char) (ts : List TokenInfo) :
      strHeadline (orgHeadlineFields v) = v → CT (lvl + 1) ts →
      CT lvl (.headline ln v :: ts)
  | hlexit (lvl ln : Nat) (ts : List TokenInfo) :
      CT lvl ts → CT (lvl + 1) (.hlexit ln :: ts)

/-- Canonical recognized form of one line, given the tokenizer level before
it: `some newLevel` when the line is empty, plain text, a comment `"# x"`
with exactly one space and non-blank content, a directive `"#+NAME: args"`
with exactly one space and non-blank arguments, or a heading
`"<stars> <title>"` whose run respects the level discipline (at most one
deeper) and whose title renders back to itself; `none` otherwise.  Lines must
carry no trailing whitespace (the tokenizer strips it on input, the
serializer never emits it). -/
def canonLineNext (lvl : Nat) (line : List Char) : Option Nat :=
  if line.isEmpty then some lvl
  else if pyRstrip line = line then
    if line.head? == some '*' then
      let r := starRun line
      if line.get? r == some ' ' then
        -- heading line: single-space separator, level discipline, title
        -- non-blank, not starting with whitespace, rendering to itself
        let title := line.drop (r + 1)
        if r ≤ lvl + 1 && !title.isEmpty && !wsHead title &&
            strHeadline (orgHeadlineFields title) == title then
          some r
        else none
      else
        match line.get? r with
        | some c2 =>
          -- run followed by other whitespace: a heading with a non-' '
          -- separator, not canonical; by a non-whitespace char: plain text
          if pyIsSpace c2 then none else some lvl
        | none => some lvl  -- a line of stars only: plain text
    else if line.head? == some '#' then
      match line.get? 1 with
      | none => none        -- the bare "#" line crashes the tokenizer
      | some c =>
        if c = '+' then
          match pyFindFrom line ':' 2 with
          | some cpos =>
            if isCtlWord line 2 cpos then
              -- accepted directive: canonical iff ": " then non-blank args
              if line.get? (cpos + 1) == some ' ' &&
                  (match line.get? (cpos + 2) with
                   | some c2 => !pyIsSpace c2
                   | none => false) then
                some lvl
              else none
            else none
          | none => none
        else if c = ' ' then
          -- comment: exactly one space, then non-blank content
          match line.get? 2 with
          | some c2 => if pyIsSpace c2 then none else some lvl
          | none => none
        else none
    else some lvl
  else none

/-- The canonical recognized subset: every line canonical, levels threaded. -/
def canonLines : Nat → List (List Char) → Bool
  | _, [] => true
  | lvl, l :: ls =>
    match canonLineNext lvl l with
    | some lvl2 => canonLines lvl2 ls
    | none => false

/-- C6: `"TODO [#A] Buy milk :errand:"` yields done = pending (`False` in the
source's tri-state), priority `"A"`, title `"Buy milk"`, tags `["errand"]`;
`"Do it :work:urgent:"` yields title `"Do it"` and tags `["work","urgent"]`
in that order; `"x ::y:"` yields tags `["","y"]`, the empty tag from the
consecutive colons preserved. -/
theorem C6_headline_examples :
    orgHeadlineFields ("TODO [#A] Buy milk :errand:".toList) =
      ⟨some false, some 'A', "Buy milk".toList, ["errand".toList]⟩ ∧
    orgHeadlineFields ("Do it :work:urgent:".toList) =
      ⟨none, none, "Do it".toList, ["work".toList, "urgent".toList]⟩ ∧
    orgHeadlineFields ("x ::y:".toList) =
      ⟨none, none, ['x'], [[], ['y']]⟩ := by
  refine ⟨?_, ?_, ?_⟩ <;> decide

lemma drop_takeWhile_length (p : Char → Bool) (l : List Char) :
    l.drop ((l.takeWhile p).length) = l.dropWhile p := by
  induction l with
  | nil => rfl
  | cons a t ih =>
    by_cases h : p a <;> simp [List.takeWhile_cons, List.dropWhile_cons, h, ih]

lemma drop_skipSpace (buf : List Char) (pos : Nat) :
    buf.drop (skipSpace buf pos) = (buf.drop pos).dropWhile pyIsSpace := by
  unfold skipSpace
  rw [← List.drop_drop, drop_takeWhile_length]

lemma mem_ctlChars_not_lower (c : Char) (h1 : 'a' ≤ c) (hx : c ∈ ctlChars) : False := by
  have he : ctlChars = ['_', 'A', 'B', 'C', 'D', 'E', 'F', 'G', 'H', 'I', 'J', 'K', 'L',
      'M', 'N', 'O', 'P', 'Q', 'R', 'S', 'T', 'U', 'V', 'W', 'X', 'Y', 'Z'] := rfl
  rw [he] at hx
  fin_cases hx <;> exact absurd h1 (by decide)

lemma isCtlWord_false_of_lower (buf : List Char) (frompos topos : Nat) (c : Char)
    (hc : c ∈ (buf.drop frompos).take (topos - frompos)) (h1 : 'a' ≤ c) :
    isCtlWord buf frompos topos = false := by
  unfold isCtlWord
  rw [List.all_eq_false]
  refine ⟨c, hc, ?_⟩
  intro hcon
  exact mem_ctlChars_not_lower c h1 (by simpa using hcon)

lemma lineTokens_heading_le (lineno level : Nat) (buf : List Char) (c : Char)
    (hhead : buf.head? = some '*') (hc : buf.get? (starRun buf) = some c)
    (hws : pyIsSpace c = true) (hle : starRun buf ≤ level) :
    lineTokens lineno level buf =
      .ok ⟨List.replicate (level - starRun buf + 1) (.hlexit lineno) ++
           [.headline lineno (buf.drop (skipSpace buf (starRun buf)))], starRun buf⟩ := by
  have hne : buf ≠ [] := by intro h; subst h; simp at hhead
  have hc2 : buf[starRun buf]? = some c := by simpa using hc
  have hngt : ¬ starRun buf > level := by omega
  rcases Nat.lt_or_ge (starRun buf) level with hlt | hge
  · simp [lineTokens, hne, hhead, hc2, hws, hngt, hlt, Nat.le_of_lt hlt,
      List.reverse_append, List.replicate_succ]
  · have heq : starRun buf = level := by omega
    rw [heq] at hc2
    simp [lineTokens, hne, hhead, hc2, hws, hngt, heq,
      List.reverse_append, List.replicate_succ]

lemma lineTokens_heading_gt (lineno level : Nat) (buf : List Char) (c : Char)
    (hhead : buf.head? = some '*') (hc : buf.get? (starRun buf) = some c)
    (hws : pyIsSpace c = true) (hgt : level < starRun buf) :
    lineTokens lineno level buf =
      .ok ⟨[.headline lineno (buf.drop (skipSpace buf (starRun buf)))], level + 1⟩ := by
  have hne : buf ≠ [] := by intro h; subst h; simp at hhead
  have hc2 : buf[starRun buf]? = some c := by simpa using hc
  simp [lineTokens, hne, hhead, hc2, hws, hgt, Nat.not_le_of_lt, Nat.lt_irrefl]

lemma lineTokens_nil (lineno level : Nat) :
    lineTokens lineno level [] = .ok ⟨[.text lineno []], level⟩ := rfl

lemma lineTokens_star_nohead (lineno level : Nat) (buf : List Char)
    (hhead : buf.head? = some '*')
    (hno : buf.get? (starRun buf) = none ∨
           ∃ c, buf.get? (starRun buf) = some c ∧ pyIsSpace c = false) :
    lineTokens lineno level buf = .ok ⟨[.text lineno buf], level⟩ := by
  have hne : buf ≠ [] := by intro h; subst h; simp at hhead
  rcases hno with hnone | ⟨c, hc, hcws⟩
  · have hc2 : buf[starRun buf]? = none := by simpa using hnone
    simp [lineTokens, hne, hhead, hc2]
  · have hc2 : buf[starRun buf]? = some c := by simpa using hc
    simp [lineTokens, hne, hhead, hc2, hcws]

lemma lineTokens_comment (lineno level : Nat) (c : Char) (rest : List Char)
    (hnotdir : c ≠ '+' ∨ pyFindFrom ('#' :: c :: rest) ':' 2 = none ∨
        ∃ cpos, pyFindFrom ('#' :: c :: rest) ':' 2 = some cpos ∧
          isCtlWord ('#' :: c :: rest) 2 cpos = false) :
    lineTokens lineno level ('#' :: c :: rest) =
      .ok ⟨[.comment lineno ((c :: rest).dropWhile pyIsSpace)], level⟩ := by
  have hval : ('#' :: c :: rest).drop (skipSpace ('#' :: c :: rest) 1) =
      (c :: rest).dropWhile pyIsSpace := by
    rw [drop_skipSpace]; rfl
  by_cases hplus : c = '+'
  · subst hplus
    rcases hnotdir with h | h | ⟨cpos, hfind, hctl⟩
    · exact absurd rfl h
    · simp [lineTokens, h, hval]
    · simp [lineTokens, hfind, hctl, hval]
  · simp [lineTokens, hplus, hval]

lemma lineTokens_directive (lineno level : Nat) (rest : List Char) (cpos : Nat)
    (hfind : pyFindFrom ('#' :: '+' :: rest) ':' 2 = some cpos)
    (hctl : isCtlWord ('#' :: '+' :: rest) 2 cpos = true) :
    lineTokens lineno level ('#' :: '+' :: rest) =
      .ok ⟨[.directive lineno (rest.take (cpos - 2)),
            .text lineno (pyStrip (('#' :: '+' :: rest).drop (cpos + 1)))], level⟩ := by
  have hlen : ¬ (2 ≥ ('#' :: '+' :: rest).length) ∨ rest = [] := by
    cases rest with
    | nil => exact Or.inr rfl
    | cons a t => left; simp
  rcases hlen with hlen | hnil
  · have hne : rest ≠ [] := by
      intro h; subst h; simp at hlen
    simp [lineTokens, hfind, hctl, hlen, hne]
  · subst hnil
    simp [pyFindFrom] at hfind

lemma lineTokens_plain (lineno level : Nat) (buf : List Char)
    (hne : buf ≠ []) (hstar : buf.head? ≠ some '*') (hhash : buf.head? ≠ some '#') :
    lineTokens lineno level buf = .ok ⟨[.text lineno buf], level⟩ := by
  simp [lineTokens, hne, hstar, hhash]

lemma lineTokens_hash_crash (lineno level : Nat) :
    lineTokens lineno level ['#'] = .error () := rfl

lemma lineTokens_shape (lineno level : Nat) (buf : List Char) (out : LineOut)
    (h : lineTokens lineno level buf = .ok out) :
    (∀ ln n, TokenInfo.directive ln n ∉ out.toks) ∨
    (∃ cpos, pyFindFrom buf ':' 2 = some cpos ∧ isCtlWord buf 2 cpos = true ∧
      out.toks = [.directive lineno ((buf.drop 2).take (cpos - 2)),
                  .text lineno (pyStrip (buf.drop (cpos + 1)))]) := by
  rcases buf with _ | ⟨c0, rest⟩
  · rw [lineTokens_nil] at h
    cases h; left; simp
  by_cases hstar : c0 = '*'
  · subst hstar
    have hhead : ('*' :: rest).head? = some '*' := rfl
    rcases hget : ('*' :: rest).get? (starRun ('*' :: rest)) with _ | c
    · rw [lineTokens_star_nohead lineno level _ hhead (Or.inl hget)] at h
      cases h; left; simp
    · by_cases hws : pyIsSpace c = true
      · rcases Nat.lt_or_ge level (starRun ('*' :: rest)) with hgt | hle
        · rw [lineTokens_heading_gt lineno level _ c hhead hget hws hgt] at h
          cases h; left; simp
        · rw [lineTokens_heading_le lineno level _ c hhead hget hws hle] at h
          cases h; left
          intro ln n hmem
          simp [List.mem_replicate] at hmem
      · rw [lineTokens_star_nohead lineno level _ hhead
            (Or.inr ⟨c, hget, by simpa using hws⟩)] at h
        cases h; left; simp
  by_cases hhash : c0 = '#'
  · subst hhash
    rcases rest with _ | ⟨c1, rest1⟩
    · rw [lineTokens_hash_crash] at h; cases h
    by_cases hplus : c1 = '+'
    · subst hplus
      rcases hfind : pyFindFrom ('#' :: '+' :: rest1) ':' 2 with _ | cpos
      · rw [lineTokens_comment lineno level _ _ (Or.inr (Or.inl hfind))] at h
        cases h; left; simp
      · rcases hctl : isCtlWord ('#' :: '+' :: rest1) 2 cpos with _ | _
        · rw [lineTokens_comment lineno level _ _
              (Or.inr (Or.inr ⟨cpos, hfind, hctl⟩))] at h
          cases h; left; simp
        · rw [lineTokens_directive lineno level _ cpos hfind hctl] at h
          cases h; right
          exact ⟨cpos, rfl, by simp [hctl], rfl⟩
    · rw [lineTokens_comment lineno level _ _ (Or.inl hplus)] at h
      cases h; left; simp
  · rw [lineTokens_plain lineno level _ (by simp)
        (by simp [hstar]) (by simp [hhash])] at h
    cases h; left; simp

lemma lineTokens_pairing (lineno level : Nat) (buf : List Char) (out : LineOut)
    (h : lineTokens lineno level buf = .ok out) (i ln : Nat) (n : List Char)
    (hd : out.toks.get? i = some (.directive ln n)) :
    i + 1 < out.toks.length ∧
      ∃ cpos, pyFindFrom buf ':' 2 = some cpos ∧ ln = lineno ∧
        n = (buf.drop 2).take (cpos - 2) ∧
        out.toks.get? (i + 1) = some (.text lineno (pyStrip (buf.drop (cpos + 1)))) := by
  rcases lineTokens_shape lineno level buf out h with hno | ⟨cpos, hfind, hctl, houts⟩
  · exact absurd (List.get?_mem hd) (hno ln n)
  · rw [houts] at hd ⊢
    match i, hd with
    | 0, hd =>
      simp only [List.get?] at hd
      injection hd with hd
      cases hd
      exact ⟨by simp, cpos, hfind, rfl, rfl, rfl⟩
    | 1, hd => simp at hd
    | (m + 2), hd => simp at hd

lemma tokenizeLines_pairing (lines : List (List Char)) (level lineno : Nat)
    (toks : List TokenInfo) (h : tokenizeLines lines level lineno = .ok toks) :
    ∀ i ln n, toks.get? i = some (.directive ln n) →
      ∃ v, toks.get? (i + 1) = some (.text ln v) := by
  induction lines generalizing level lineno toks with
  | nil =>
    cases h
    intro i ln n hd
    simp at hd
  | cons raw rest ih =>
    intro i ln n hd
    rw [tokenizeLines] at h
    rcases hlt : lineTokens (lineno + 1) level (pyRstrip raw) with e | out
    · rw [hlt] at h; cases h
    rw [hlt] at h
    dsimp only at h
    rcases hrest : tokenizeLines rest out.level (lineno + 1) with e | toks2
    · rw [hrest] at h; cases h
    rw [hrest] at h
    dsimp only at h
    cases h
    by_cases hi : i < out.toks.length
    · rw [List.get?_append hi] at hd
      obtain ⟨hlen, cpos, hfind, hln, hn, htext⟩ :=
        lineTokens_pairing (lineno + 1) level (pyRstrip raw) out hlt i ln n hd
      refine ⟨pyStrip ((pyRstrip raw).drop (cpos + 1)), ?_⟩
      rw [List.get?_append hlen, htext, hln]
    · push_neg at hi
      rw [List.get?_append_right hi] at hd
      obtain ⟨v, hv⟩ := ih out.level (lineno + 1) toks2 hrest (i - out.toks.length) ln n hd
      refine ⟨v, ?_⟩
      rw [List.get?_append_right (by omega)]
      rw [show i + 1 - out.toks.length = i - out.toks.length + 1 by omega]
      exact hv

lemma take_length_takeWhile (p : Char → Bool) (l : List Char) :
    l.take ((l.takeWhile p).length) = l.takeWhile p := by
  induction l with
  | nil => rfl
  | cons a t ih =>
    by_cases h : p a <;> simp [List.takeWhile_cons, h, ih]

lemma takeWhile_star (l : List Char) :
    l.takeWhile (· == '*') = List.replicate (starRun l) '*' := by
  rw [List.eq_replicate_iff]
  refine ⟨rfl, ?_⟩
  intro b hb
  have := List.mem_takeWhile_imp hb
  simpa using this

lemma star_decomp (l : List Char) (c : Char) (hc : l.get? (starRun l) = some c) :
    l = List.replicate (starRun l) '*' ++ c :: l.drop (starRun l + 1) := by
  have hlt : starRun l < l.length := by
    by_contra hge
    rw [List.get?_eq_none.mpr (by omega)] at hc
    cases hc
  have h1 : l.take (starRun l) = List.replicate (starRun l) '*' := by
    conv_lhs => rw [show starRun l = ((l.takeWhile (· == '*')).length) from rfl,
      take_length_takeWhile, takeWhile_star]
  have h2 : l.drop (starRun l) = c :: l.drop (starRun l + 1) := by
    rw [List.drop_eq_getElem_cons hlt]
    have : l[starRun l] = c := by
      have := List.getElem?_eq_getElem hlt
      rw [← List.get?_eq_getElem?] at this
      rw [hc] at this
      exact (Option.some_inj.mp this).symm
    rw [this]
  calc l = l.take (starRun l) ++ l.drop (starRun l) := (List.take_append_drop _ l).symm
    _ = _ := by rw [h1, h2]

lemma renderToks_hlexit (ln lvl : Nat) (ts : List TokenInfo) :
    renderToks (TokenInfo.hlexit ln :: ts) lvl = renderToks ts (lvl - 1) := rfl

lemma CT_replicate_hlexit (k lvl ln : Nat) (ts : List TokenInfo) (h : CT lvl ts) :
    CT (lvl + k) (List.replicate k (TokenInfo.hlexit ln) ++ ts) := by
  induction k with
  | zero => rw [List.replicate_zero, List.nil_append, Nat.add_zero]; exact h
  | succ k ih =>
    rw [List.replicate_succ, List.cons_append, Nat.add_succ]
    exact CT.hlexit (lvl + k) ln _ ih

lemma renderToks_replicate_hlexit (k lvl ln : Nat) (ts : List TokenInfo) :
    renderToks (List.replicate k (TokenInfo.hlexit ln) ++ ts) (lvl + k) =
      renderToks ts lvl := by
  induction k with
  | zero => rw [List.replicate_zero, List.nil_append, Nat.add_zero]
  | succ k ih =>
    rw [List.replicate_succ, List.cons_append, renderToks_hlexit,
      show lvl + (k + 1) - 1 = lvl + k from by omega]
    exact ih

lemma findIdxQ_spec (p : Char → Bool) :
    ∀ (xs : List Char) (i j : Nat), List.findIdx? p xs i = some j →
      i ≤ j ∧ ∃ a, xs.get? (j - i) = some a ∧ p a = true := by
  intro xs
  induction xs with
  | nil => intro i j h; simp [List.findIdx?_nil] at h
  | cons x t ih =>
    intro i j h
    rw [List.findIdx?_cons] at h
    by_cases hp : p x = true
    · rw [if_pos hp] at h
      cases h
      exact ⟨Nat.le_refl _, x, by simp, hp⟩
    · rw [if_neg hp] at h
      obtain ⟨hij, a, ha, hpa⟩ := ih (i + 1) j h
      refine ⟨by omega, a, ?_, hpa⟩
      rw [show j - i = (j - (i + 1)) + 1 by omega]
      exact ha

lemma pyFindFrom_spec (l : List Char) (c : Char) (s i : Nat)
    (h : pyFindFrom l c s = some i) :
    s ≤ i ∧ l.get? i = some c := by
  unfold pyFindFrom at h
  rcases hf : (l.drop s).findIdx? (· == c) with _ | j
  · rw [hf] at h; cases h
  · rw [hf] at h
    have h2 : some (j + s) = some i := h
    injection h2 with h
    obtain ⟨-, a, ha, hpa⟩ := findIdxQ_spec (· == c) (l.drop s) 0 j hf
    simp only [Nat.sub_zero] at ha
    rw [List.get?_drop] at ha
    have : a = c := by simpa using hpa
    subst this
    subst h
    exact ⟨by omega, by rw [Nat.add_comm] at ha; exact ha⟩

lemma head_not_ws_of_dropWhile_eq (l : List Char) (h : l.dropWhile pyIsSpace = l) :
    ∀ c, l.head? = some c → pyIsSpace c = false := by
  intro c hc
  cases l with
  | nil => cases hc
  | cons a t =>
    injection hc with hc; subst hc
    by_contra hws
    rw [List.dropWhile_cons] at h
    simp only [Bool.not_eq_false] at hws
    rw [if_pos hws] at h
    have hlen := congrArg List.length h
    have hle : (t.dropWhile pyIsSpace).length ≤ t.length := (List.dropWhile_suffix pyIsSpace).length_le
    simp at hlen
    omega

lemma dropWhile_eq_self_of_head (l : List Char)
    (h : ∀ c, l.head? = some c → pyIsSpace c = false) :
    l.dropWhile pyIsSpace = l := by
  cases l with
  | nil => rfl
  | cons a t => rw [List.dropWhile_cons, if_neg]; simp [h a rfl]

lemma pyRstrip_eq_self_iff (l : List Char) :
    pyRstrip l = l ↔ ∀ c, l.getLast? = some c → pyIsSpace c = false := by
  unfold pyRstrip
  constructor
  · intro h c hc
    have h2 : l.reverse.dropWhile pyIsSpace = l.reverse := by
      have := congrArg List.reverse h
      rwa [List.reverse_reverse] at this
    exact head_not_ws_of_dropWhile_eq _ h2 c (by rwa [List.head?_reverse])
  · intro h
    have h2 : l.reverse.dropWhile pyIsSpace = l.reverse :=
      dropWhile_eq_self_of_head _ (fun c hc => h c (by rwa [List.head?_reverse] at hc))
    rw [h2, List.reverse_reverse]

lemma pyRstrip_drop (l : List Char) (k : Nat) (h : pyRstrip l = l) :
    pyRstrip (l.drop k) = l.drop k := by
  rw [pyRstrip_eq_self_iff] at h ⊢
  intro c hc
  rw [List.getLast?_drop] at hc
  by_cases hk : l.length ≤ k
  · rw [if_pos hk] at hc; cases hc
  · rw [if_neg hk] at hc; exact h c hc

lemma skipSpace_star (l : List Char) (r : Nat) (title : List Char)
    (hdrop : l.drop r = ' ' :: title) (ht : wsHead title = false) :
    l.drop (skipSpace l r) = title := by
  rw [drop_skipSpace, hdrop, List.dropWhile_cons]
  simp only [show pyIsSpace ' ' = true from rfl, if_true]
  cases title with
  | nil => rfl
  | cons c t =>
    rw [List.dropWhile_cons]
    simp only [wsHead, List.head?] at ht
    simp [ht]

lemma renderToks_text (ln lvl : Nat) (v : List Char) (ts : List TokenInfo) :
    renderToks (TokenInfo.text ln v :: ts) lvl = v :: renderToks ts lvl := rfl

lemma renderToks_comment (ln lvl : Nat) (v : List Char) (ts : List TokenInfo) :
    renderToks (TokenInfo.comment ln v :: ts) lvl =
      ('#' :: ' ' :: v) :: renderToks ts lvl := rfl

lemma renderToks_headline (ln lvl : Nat) (v : List Char) (ts : List TokenInfo) :
    renderToks (TokenInfo.headline ln v :: ts) lvl =
      (List.replicate (lvl + 1) '*' ++ ' ' :: strHeadline (orgHeadlineFields v)) ::
        renderToks ts (lvl + 1) := rfl

lemma renderToks_dir_text (ln ln2 lvl : Nat) (n v : List Char) (ts : List TokenInfo) :
    renderToks (TokenInfo.directive ln n :: TokenInfo.text ln2 v :: ts) lvl =
      ('#' :: '+' :: (n ++ ':' :: ' ' :: v)) :: renderToks ts lvl := rfl

lemma dumpsFlat_nil (level : Nat) : dumpsFlat [] level = [] := by
  simp [dumpsFlat]

lemma dumpsFlat_textNode (v : List Char) (cs : List OrgNode) (level : Nat) :
    dumpsFlat (OrgNode.textNode v [] :: cs) level = v :: dumpsFlat cs level := by
  simp [dumpsFlat]

lemma dumpsFlat_commentNode (v : List Char) (cs : List OrgNode) (level : Nat) :
    dumpsFlat (OrgNode.commentNode v [] :: cs) level =
      ('#' :: ' ' :: v) :: dumpsFlat cs level := by
  simp [dumpsFlat]

lemma dumpsFlat_directiveNode (n v : List Char) (cs : List OrgNode) (level : Nat) :
    dumpsFlat (OrgNode.directiveNode n v [] :: cs) level =
      ('#' :: '+' :: (n ++ ':' :: ' ' :: v)) :: dumpsFlat cs level := by
  simp [dumpsFlat]

lemma dumpsFlat_headline (f : HeadFields) (kids cs : List OrgNode) (level : Nat) :
    dumpsFlat (OrgNode.headline f kids :: cs) level =
      ((List.replicate level '*' ++ [' ']) ++ strHeadline f) ::
        (dumpsFlat kids (level + 1) ++ dumpsFlat cs level) := by
  simp [dumpsFlat]

lemma CT_text_inv (lvl ln : Nat) (v : List Char) (ts : List TokenInfo)
    (h : CT lvl (TokenInfo.text ln v :: ts)) : CT lvl ts := by
  cases h; rename_i hts; exact hts

lemma CT_comment_inv (lvl ln : Nat) (v : List Char) (ts : List TokenInfo)
    (h : CT lvl (TokenInfo.comment ln v :: ts)) : CT lvl ts := by
  cases h; rename_i hts; exact hts

lemma CT_directive_inv (lvl ln : Nat) (n : List Char) (rest : List TokenInfo)
    (h : CT lvl (TokenInfo.directive ln n :: rest)) :
    ∃ ln2 v ts, rest = TokenInfo.text ln2 v :: ts ∧ CT lvl ts := by
  cases h; rename_i ln2 v ts hts; exact ⟨ln2, v, ts, rfl, hts⟩

lemma CT_hlexit_inv (lvl ln : Nat) (ts : List TokenInfo)
    (h : CT lvl (TokenInfo.hlexit ln :: ts)) :
    ∃ lv, lvl = lv + 1 ∧ CT lv ts := by
  cases h; rename_i lv hts; exact ⟨lv, rfl, hts⟩

lemma CT_headline_inv (lvl ln : Nat) (v : List Char) (ts : List TokenInfo)
    (h : CT lvl (TokenInfo.headline ln v :: ts)) :
    strHeadline (orgHeadlineFields v) = v ∧ CT (lvl + 1) ts := by
  cases h; rename_i hrt hts; exact ⟨hrt, hts⟩

lemma parse_render (N : Nat) : ∀ (toks : List TokenInfo), toks.length ≤ N →
    ∀ (lvl fuel : Nat), CT lvl toks → toks.length < fuel →
    ((parseBlock fuel toks none).2 = [] ∧
      renderToks toks lvl = dumpsFlat (parseBlock fuel toks none).1 (lvl + 1)) ∨
    (∃ lvl2, lvl = lvl2 + 1 ∧ CT lvl2 (parseBlock fuel toks none).2 ∧
      (parseBlock fuel toks none).2.length < toks.length ∧
      renderToks toks lvl = dumpsFlat (parseBlock fuel toks none).1 (lvl + 1) ++
        renderToks (parseBlock fuel toks none).2 lvl2) := by
  induction N with
  | zero =>
    intro toks hN lvl fuel hCT hf
    have h0 : toks = [] := List.eq_nil_of_length_eq_zero (by omega)
    subst h0
    obtain ⟨f, rfl⟩ : ∃ f, fuel = f + 1 := ⟨fuel - 1, by omega⟩
    left
    refine ⟨rfl, ?_⟩
    show ([] : List (List Char)) = dumpsFlat [] (lvl + 1)
    rw [dumpsFlat_nil]
  | succ N ih =>
    intro toks hN lvl fuel hCT hf
    obtain ⟨f, rfl⟩ : ∃ f, fuel = f + 1 := ⟨fuel - 1, by omega⟩
    rcases toks with _ | ⟨tok, rest⟩
    · left
      refine ⟨rfl, ?_⟩
      show ([] : List (List Char)) = dumpsFlat [] (lvl + 1)
      rw [dumpsFlat_nil]
    rcases tok with ⟨ln, v⟩ | ⟨ln⟩ | ⟨ln, v⟩ | ⟨ln, v⟩ | ⟨ln, n⟩
    · -- HEADLINE
      obtain ⟨hrt, hts⟩ := CT_headline_inv lvl ln v rest hCT
      have h1 : parseBlock (f + 1) (TokenInfo.headline ln v :: rest) none =
          (OrgNode.headline (orgHeadlineFields v)
              (parseBlock f rest none).1 ::
              (parseBlock f (parseBlock f rest none).2 none).1,
            (parseBlock f (parseBlock f rest none).2 none).2) := rfl
      have hlN : rest.length ≤ N := by simp at hN; omega
      have hlf : rest.length < f := by simp at hf; omega
      rcases ih rest hlN (lvl + 1) f hts hlf with ⟨hrest, heq⟩ | ⟨lvl2, hl2, hCT2, hlen, heq⟩
      · have h2 : parseBlock f (parseBlock f rest none).2 none = ([], []) := by
          rw [hrest]
          obtain ⟨g, rfl⟩ : ∃ g, f = g + 1 := ⟨f - 1, by omega⟩
          rfl
        left
        rw [h1, h2, renderToks_headline, dumpsFlat_headline, heq]
        refine ⟨rfl, ?_⟩
        rw [dumpsFlat_nil, List.append_nil]
        simp
      · have hl2e : lvl2 = lvl := by omega
        subst hl2e
        have hlN2 : (parseBlock f rest none).2.length ≤ N := by omega
        have hlf2 : (parseBlock f rest none).2.length < f := by omega
        rcases ih _ hlN2 lvl2 f hCT2 hlf2 with ⟨hrest2, heq2⟩ | ⟨lvl3, rfl, hCT3, hlen3, heq3⟩
        · left
          rw [h1, renderToks_headline, dumpsFlat_headline, heq, heq2]
          refine ⟨hrest2, ?_⟩
          simp [List.append_assoc]
        · right
          refine ⟨lvl3, rfl, ?_, ?_, ?_⟩
          · rw [h1]; exact hCT3
          · rw [h1]; simp only [List.length_cons]; omega
          · rw [h1, renderToks_headline, dumpsFlat_headline, heq, heq3]
            simp [List.append_assoc]
    · -- HLEXIT
      obtain ⟨lv, rfl, hts⟩ := CT_hlexit_inv lvl ln rest hCT
      have h1 : parseBlock (f + 1) (TokenInfo.hlexit ln :: rest) none = ([], rest) := rfl
      right
      refine ⟨lv, rfl, ?_, ?_, ?_⟩
      · rw [h1]; exact hts
      · rw [h1]; simp
      · rw [h1, renderToks_hlexit, dumpsFlat_nil, List.nil_append]
        simp
    · -- TEXT
      have hts := CT_text_inv lvl ln v rest hCT
      have h1 : parseBlock (f + 1) (TokenInfo.text ln v :: rest) none =
          (OrgNode.textNode v [] :: (parseBlock f rest none).1, (parseBlock f rest none).2) := rfl
      have hlN : rest.length ≤ N := by simp at hN; omega
      have hlf : rest.length < f := by simp at hf; omega
      rcases ih rest hlN lvl f hts hlf with ⟨hrest, heq⟩ | ⟨lvl2, rfl, hCT2, hlen, heq⟩
      · left
        rw [h1, renderToks_text]
        exact ⟨hrest, by rw [dumpsFlat_textNode, heq]⟩
      · right
        refine ⟨lvl2, rfl, ?_, ?_, ?_⟩
        · rw [h1]; exact hCT2
        · rw [h1]; simp only [List.length_cons]; omega
        · rw [h1, renderToks_text, dumpsFlat_textNode, heq, List.cons_append]
    · -- COMMENT
      have hts := CT_comment_inv lvl ln v rest hCT
      have h1 : parseBlock (f + 1) (TokenInfo.comment ln v :: rest) none =
          (OrgNode.commentNode v [] :: (parseBlock f rest none).1, (parseBlock f rest none).2) := rfl
      have hlN : rest.length ≤ N := by simp at hN; omega
      have hlf : rest.length < f := by simp at hf; omega
      rcases ih rest hlN lvl f hts hlf with ⟨hrest, heq⟩ | ⟨lvl2, rfl, hCT2, hlen, heq⟩
      · left
        rw [h1, renderToks_comment]
        exact ⟨hrest, by rw [dumpsFlat_commentNode, heq]⟩
      · right
        refine ⟨lvl2, rfl, ?_, ?_, ?_⟩
        · rw [h1]; exact hCT2
        · rw [h1]; simp only [List.length_cons]; omega
        · rw [h1, renderToks_comment, dumpsFlat_commentNode, heq, List.cons_append]
    · -- DIRECTIVE
      obtain ⟨ln2, v, ts, rfl, hts⟩ := CT_directive_inv lvl ln n rest hCT
      obtain ⟨g, rfl⟩ : ∃ g, f = g + 1 := ⟨f - 1, by simp at hf; omega⟩
      have h1 : parseBlock (g + 2) (TokenInfo.directive ln n :: TokenInfo.text ln2 v :: ts) none =
          (OrgNode.directiveNode n v [] :: (parseBlock g ts none).1, (parseBlock g ts none).2) := rfl
      have hlN : ts.length ≤ N := by simp at hN; omega
      have hlf : ts.length < g := by simp at hf; omega
      rcases ih ts hlN lvl g hts hlf with ⟨hrest, heq⟩ | ⟨lvl2, rfl, hCT2, hlen, heq⟩
      · left
        rw [h1, renderToks_dir_text]
        exact ⟨hrest, by rw [dumpsFlat_directiveNode, heq]⟩
      · right
        refine ⟨lvl2, rfl, ?_, ?_, ?_⟩
        · rw [h1]; exact hCT2
        · rw [h1]; simp only [List.length_cons]; omega
        · rw [h1, renderToks_dir_text, dumpsFlat_directiveNode, heq, List.cons_append]

lemma get?_some_lt (l : List Char) (i : Nat) (c : Char) (h : l.get? i = some c) :
    i < l.length := by
  by_contra hge
  rw [List.get?_eq_none.mpr (by omega)] at h
  cases h

lemma drop_ne_nil_of_get? (l : List Char) (i : Nat) (c : Char) (h : l.get? i = some c) :
    l.drop i ≠ [] := by
  intro hc
  have hlt := get?_some_lt l i c h
  have := congrArg List.length hc
  simp at this
  omega

lemma canonLineNext_inv (lvl lvl2 : Nat) (l : List Char)
    (h : canonLineNext lvl l = some lvl2) :
    pyRstrip l = l ∧
    ((l = [] ∧ lvl2 = lvl) ∨
     (∃ title, l = List.replicate (starRun l) '*' ++ ' ' :: title ∧
        title = l.drop (starRun l + 1) ∧
        1 ≤ starRun l ∧ starRun l ≤ lvl + 1 ∧ title ≠ [] ∧ wsHead title = false ∧
        strHeadline (orgHeadlineFields title) = title ∧ lvl2 = starRun l) ∨
     ((l ≠ [] ∧ lvl2 = lvl) ∧
       ((l.head? = some '*' ∧
         (l.get? (starRun l) = none ∨
          ∃ c, l.get? (starRun l) = some c ∧ pyIsSpace c = false)) ∨
        (l.head? ≠ some '*' ∧ l.head? ≠ some '#'))) ∨
     (∃ s, l = '#' :: ' ' :: s ∧ wsHead s = false ∧ s ≠ [] ∧ lvl2 = lvl) ∨
     (∃ rest1 cpos, l = '#' :: '+' :: rest1 ∧
        pyFindFrom l ':' 2 = some cpos ∧ isCtlWord l 2 cpos = true ∧
        l.get? (cpos + 1) = some ' ' ∧
        (∃ c2, l.get? (cpos + 2) = some c2 ∧ pyIsSpace c2 = false) ∧ lvl2 = lvl)) := by
  by_cases hemp : l = []
  · subst hemp
    refine ⟨rfl, Or.inl ⟨rfl, ?_⟩⟩
    simp [canonLineNext] at h
    omega
  unfold canonLineNext at h
  rw [if_neg (by simpa using hemp)] at h
  by_cases hrs : pyRstrip l = l
  swap
  · rw [if_neg hrs] at h; cases h
  rw [if_pos hrs] at h
  refine ⟨hrs, ?_⟩
  by_cases hstar : l.head? = some '*'
  · rw [if_pos (by simp [hstar])] at h
    dsimp only at h
    by_cases hsp : l.get? (starRun l) = some ' '
    · rw [if_pos (by simpa using hsp)] at h
      by_cases hcond : (decide (starRun l ≤ lvl + 1) && !(l.drop (starRun l + 1)).isEmpty &&
          !wsHead (l.drop (starRun l + 1)) &&
          (strHeadline (orgHeadlineFields (l.drop (starRun l + 1))) == l.drop (starRun l + 1))) = true
      · rw [if_pos hcond] at h
        injection h with h2
        rw [Bool.and_eq_true, Bool.and_eq_true, Bool.and_eq_true] at hcond
        obtain ⟨⟨⟨hr1, hr2⟩, hr3⟩, hr4⟩ := hcond
        right; left
        have hrun1 : 1 ≤ starRun l := by
          rcases l with _ | ⟨c0, t⟩
          · simp at hstar
          · injection hstar with hstar2
            subst hstar2
            simp [starRun, List.takeWhile_cons]
        refine ⟨l.drop (starRun l + 1), star_decomp l ' ' hsp, rfl, hrun1,
          of_decide_eq_true hr1, ?_, ?_, eq_of_beq hr4, h2.symm⟩
        · intro hc
          rw [hc] at hr2
          simp at hr2
        · rw [Bool.not_eq_true'] at hr3
          exact hr3
      · rw [if_neg hcond] at h; cases h
    · rw [if_neg (by simpa using hsp)] at h
      rcases hget : l.get? (starRun l) with _ | c2 <;> rw [hget] at h <;> dsimp only at h
      · injection h with h2
        right; right; left
        exact ⟨⟨hemp, h2.symm⟩, Or.inl ⟨hstar, Or.inl rfl⟩⟩
      · by_cases hws : pyIsSpace c2 = true
        · rw [if_pos hws] at h; cases h
        · rw [if_neg hws] at h
          injection h with h2
          right; right; left
          exact ⟨⟨hemp, h2.symm⟩,
            Or.inl ⟨hstar, Or.inr ⟨c2, rfl, by simpa using hws⟩⟩⟩
  · rw [if_neg (by simpa using hstar)] at h
    by_cases hhash : l.head? = some '#'
    · rw [if_pos (by simp [hhash])] at h
      rcases hget1 : l.get? 1 with _ | c <;> rw [hget1] at h <;> dsimp only at h
      · cases h
      by_cases hplus : c = '+'
      · subst hplus
        rw [if_pos rfl] at h
        rcases hfind : pyFindFrom l ':' 2 with _ | cpos <;> rw [hfind] at h <;> dsimp only at h
        · cases h
        by_cases hctl : isCtlWord l 2 cpos = true
        · rw [if_pos hctl] at h
          by_cases hc2 : ((l.get? (cpos + 1) == some ' ') &&
              (match l.get? (cpos + 2) with
               | some c2 => !pyIsSpace c2
               | none => false)) = true
          · rw [if_pos hc2] at h
            injection h with h2
            rw [Bool.and_eq_true] at hc2
            obtain ⟨hsp1, hsp2⟩ := hc2
            right; right; right; right
            have hdecomp : l = '#' :: '+' :: l.drop 2 := by
              rcases l with _ | ⟨c0, t⟩
              · simp at hhash
              rcases t with _ | ⟨c1, t1⟩
              · simp at hget1
              injection hhash with hh; subst hh
              simp only [List.get?] at hget1
              injection hget1 with hg; subst hg
              rfl
            refine ⟨l.drop 2, cpos, hdecomp, rfl, hctl, by simpa using hsp1, ?_, h2.symm⟩
            rcases hg2 : l.get? (cpos + 2) with _ | c2 <;> rw [hg2] at hsp2
            · cases hsp2
            · exact ⟨c2, rfl, by simpa using hsp2⟩
          · rw [if_neg hc2] at h; cases h
        · rw [if_neg hctl] at h; cases h
      · rw [if_neg hplus] at h
        by_cases hspc : c = ' '
        · subst hspc
          rw [if_pos rfl] at h
          rcases hget2 : l.get? 2 with _ | c2 <;> rw [hget2] at h <;> dsimp only at h
          · cases h
          by_cases hws : pyIsSpace c2 = true
          · rw [if_pos hws] at h; cases h
          · rw [if_neg hws] at h
            injection h with h2
            right; right; right; left
            have hdecomp : l = '#' :: ' ' :: l.drop 2 := by
              rcases l with _ | ⟨c0, t⟩
              · simp at hhash
              rcases t with _ | ⟨c1, t1⟩
              · simp at hget1
              injection hhash with hh; subst hh
              simp only [List.get?] at hget1
              injection hget1 with hg; subst hg
              rfl
            refine ⟨l.drop 2, hdecomp, ?_, drop_ne_nil_of_get? l 2 c2 hget2, h2.symm⟩
            rcases hg2 : l.drop 2 with _ | ⟨d, t2⟩
            · rfl
            · have hd : l.get? 2 = some d := by
                rw [← List.get?_drop l 2 0, hg2]; rfl
              rw [hd] at hget2
              injection hget2 with he; subst he
              rw [wsHead]
              simp only [hg2, List.head?]
              simpa using hws
        · rw [if_neg hspc] at h; cases h
    · rw [if_neg (by simpa using hhash)] at h
      injection h with h2
      right; right; left
      exact ⟨⟨hemp, h2.symm⟩, Or.inr ⟨hstar, hhash⟩⟩

lemma drop_cons_of_get? (l : List Char) (i : Nat) (c : Char) (h : l.get? i = some c) :
    l.drop i = c :: l.drop (i + 1) := by
  have hlt := get?_some_lt l i c h
  rw [List.drop_eq_getElem_cons hlt]
  congr 1
  have h2 := List.getElem?_eq_getElem hlt
  rw [← List.get?_eq_getElem?, h] at h2
  exact Option.some_inj.mp h2.symm

lemma dropWhile_ws_of_wsHead_false (s : List Char) (h : wsHead s = false) :
    s.dropWhile pyIsSpace = s := by
  apply dropWhile_eq_self_of_head
  intro c hc
  cases s with
  | nil => cases hc
  | cons a t =>
    injection hc with hc; subst hc
    simpa [wsHead, List.head?] using h

lemma tokenize_canon : ∀ (lines : List (List Char)) (lvl lineno : Nat),
    canonLines lvl lines = true →
    ∃ toks, tokenizeLines lines lvl lineno = .ok toks ∧ CT lvl toks ∧
      renderToks toks lvl = lines := by
  intro lines
  induction lines with
  | nil => intro lvl lineno _; exact ⟨[], rfl, CT.nil lvl, rfl⟩
  | cons l ls ih =>
    intro lvl lineno h
    rw [canonLines] at h
    rcases hcn : canonLineNext lvl l with _ | lvl2 <;> rw [hcn] at h <;> dsimp only at h
    · cases h
    obtain ⟨toks2, htoks2, hCT2, hrender2⟩ := ih lvl2 (lineno + 1) h
    obtain ⟨hrs, hcase⟩ := canonLineNext_inv lvl lvl2 l hcn
    have hstep : ∀ bts : List TokenInfo, lineTokens (lineno + 1) lvl l = .ok ⟨bts, lvl2⟩ →
        tokenizeLines (l :: ls) lvl lineno = .ok (bts ++ toks2) := by
      intro bts hout
      rw [tokenizeLines, hrs, hout]
      dsimp only
      rw [htoks2]
    rcases hcase with ⟨heqn, heql⟩ |
        ⟨title, hdec, htitle, hr1, hrle, htne, htws, hrt, heql⟩ |
        ⟨⟨hne, heql⟩, htext⟩ |
        ⟨s, hdec, hsws, hsne, heql⟩ |
        ⟨rest1, cpos, hdec, hfind, hctl, hsp1, ⟨c2, hget2, hc2ws⟩, heql⟩
    · -- empty line
      subst heqn
      subst heql
      refine ⟨TokenInfo.text (lineno + 1) [] :: toks2,
        hstep [TokenInfo.text (lineno + 1) []] rfl, ?_, ?_⟩
      · exact CT.text _ _ _ _ hCT2
      · rw [renderToks_text, hrender2]
    · -- heading line
      obtain ⟨r, hrdef⟩ : ∃ r, starRun l = r := ⟨_, rfl⟩
      rw [hrdef] at hdec htitle hr1 hrle heql
      subst hdec
      subst heql
      have hhead : (List.replicate lvl2 '*' ++ ' ' :: title).head? = some '*' := by
        obtain ⟨r1, hr1e⟩ : ∃ r1, lvl2 = r1 + 1 := ⟨lvl2 - 1, by omega⟩
        rw [hr1e, List.replicate_succ]
        rfl
      have hget : (List.replicate lvl2 '*' ++ ' ' :: title).get? lvl2 = some ' ' := by
        rw [List.get?_append_right (by simp)]
        simp
      have hdrop : (List.replicate lvl2 '*' ++ ' ' :: title).drop lvl2 = ' ' :: title :=
        List.drop_left' (by simp)
      have hvalue : (List.replicate lvl2 '*' ++ ' ' :: title).drop
          (skipSpace (List.replicate lvl2 '*' ++ ' ' :: title) lvl2) = title :=
        skipSpace_star _ lvl2 title hdrop htws
      have hget2 : (List.replicate lvl2 '*' ++ ' ' :: title).get?
          (starRun (List.replicate lvl2 '*' ++ ' ' :: title)) = some ' ' := by
        rw [hrdef]; exact hget
      rcases Nat.lt_or_ge lvl lvl2 with hgt | hle
      · -- the run goes exactly one deeper: a lone HEADLINE token
        have hreq : lvl2 = lvl + 1 := by omega
        subst hreq
        have hout := lineTokens_heading_gt (lineno + 1) lvl _ ' ' hhead hget2
          (by decide) (by rw [hrdef]; omega)
        rw [hrdef, hvalue] at hout
        refine ⟨TokenInfo.headline (lineno + 1) title :: toks2, ?_, ?_, ?_⟩
        · have := hstep [TokenInfo.headline (lineno + 1) title]
          rw [List.singleton_append] at this
          exact this hout
        · exact CT.headline _ _ _ _ hrt hCT2
        · rw [renderToks_headline, hrt, hrender2]
      · -- the run stays or dedents: HLEXITs first, HEADLINE last
        have hout := lineTokens_heading_le (lineno + 1) lvl _ ' ' hhead hget2
          (by decide) (by rw [hrdef]; omega)
        rw [hrdef, hvalue] at hout
        obtain ⟨k, hk⟩ : ∃ k, lvl - lvl2 + 1 = k := ⟨_, rfl⟩
        rw [hk] at hout
        refine ⟨List.replicate k (TokenInfo.hlexit (lineno + 1)) ++
            TokenInfo.headline (lineno + 1) title :: toks2, ?_, ?_, ?_⟩
        · have := hstep (List.replicate k (TokenInfo.hlexit (lineno + 1)) ++
            [TokenInfo.headline (lineno + 1) title])
          rw [List.append_assoc, List.singleton_append] at this
          exact this hout
        · have hbase : CT (lvl2 - 1) (TokenInfo.headline (lineno + 1) title :: toks2) :=
            CT.headline _ _ _ _ hrt
              (by rw [show lvl2 - 1 + 1 = lvl2 from by omega]; exact hCT2)
          have hrep := CT_replicate_hlexit k (lvl2 - 1) (lineno + 1) _ hbase
          rw [show lvl2 - 1 + k = lvl from by omega] at hrep
          exact hrep
        · rw [show lvl = lvl2 - 1 + k from by omega, renderToks_replicate_hlexit,
            renderToks_headline, show lvl2 - 1 + 1 = lvl2 from by omega, hrt, hrender2]
    · -- plain text line
      subst heql
      have hout : lineTokens (lineno + 1) lvl2 l = .ok ⟨[.text (lineno + 1) l], lvl2⟩ := by
        rcases htext with ⟨hstar, hno⟩ | ⟨hstar, hhash⟩
        · exact lineTokens_star_nohead (lineno + 1) lvl2 l hstar hno
        · exact lineTokens_plain (lineno + 1) lvl2 l hne hstar hhash
      refine ⟨TokenInfo.text (lineno + 1) l :: toks2, hstep _ hout, ?_, ?_⟩
      · exact CT.text _ _ _ _ hCT2
      · rw [renderToks_text, hrender2]
    · -- comment line
      subst heql
      subst hdec
      have hout : lineTokens (lineno + 1) lvl2 ('#' :: ' ' :: s) =
          .ok ⟨[.comment (lineno + 1) s], lvl2⟩ := by
        have hlc := lineTokens_comment (lineno + 1) lvl2 ' ' s (Or.inl (by decide))
        rwa [show (' ' :: s).dropWhile pyIsSpace = s from ?_] at hlc
        rw [List.dropWhile_cons, if_pos (by decide)]
        exact dropWhile_ws_of_wsHead_false s hsws
      refine ⟨TokenInfo.comment (lineno + 1) s :: toks2, hstep _ hout, ?_, ?_⟩
      · exact CT.comment _ _ _ _ hCT2
      · rw [renderToks_comment, hrender2]
    · -- directive line
      subst heql
      subst hdec
      obtain ⟨hcge, hcolon⟩ :=
        pyFindFrom_spec ('#' :: '+' :: rest1) ':' 2 cpos hfind
      have hdrop1 : ('#' :: '+' :: rest1).drop (cpos + 1) =
          ' ' :: ('#' :: '+' :: rest1).drop (cpos + 2) := by
        have := drop_cons_of_get? ('#' :: '+' :: rest1) (cpos + 1) ' ' hsp1
        simpa using this
      have hargs : ('#' :: '+' :: rest1).drop (cpos + 2) =
          c2 :: ('#' :: '+' :: rest1).drop (cpos + 3) := by
        have := drop_cons_of_get? ('#' :: '+' :: rest1) (cpos + 2) c2 hget2
        simpa using this
      have hargs0 : ('#' :: '+' :: rest1).drop (cpos + 2) = rest1.drop cpos := by
        rw [show cpos + 2 = (cpos + 1) + 1 from rfl, List.drop_succ_cons, List.drop_succ_cons]
      have hstrip : pyStrip (('#' :: '+' :: rest1).drop (cpos + 1)) = rest1.drop cpos := by
        rw [hdrop1]
        unfold pyStrip pyLstrip
        rw [List.dropWhile_cons, if_pos (by decide)]
        rw [dropWhile_eq_self_of_head _ ?hh]
        · rw [← hargs0]
          exact pyRstrip_drop _ _ hrs
        case hh =>
          intro c hc
          rw [hargs] at hc
          injection hc with hc
          subst hc
          exact hc2ws
      have hline : ('#' :: '+' :: rest1) = '#' :: '+' ::
          (rest1.take (cpos - 2) ++ ':' :: ' ' :: rest1.drop cpos) := by
        conv_lhs => rw [← List.take_append_drop cpos ('#' :: '+' :: rest1)]
        rw [drop_cons_of_get? ('#' :: '+' :: rest1) cpos ':' hcolon, hdrop1, hargs0]
        rw [show cpos = (cpos - 2) + 2 from by omega, List.take_succ_cons, List.take_succ_cons]
        rw [show cpos - 2 + 2 - 2 = cpos - 2 from by omega]
        simp only [List.cons_append]
      have hout := lineTokens_directive (lineno + 1) lvl2 rest1 cpos hfind hctl
      rw [hstrip] at hout
      refine ⟨TokenInfo.directive (lineno + 1) (rest1.take (cpos - 2)) ::
          TokenInfo.text (lineno + 1) (rest1.drop cpos) :: toks2,
        ?_, ?_, ?_⟩
      · have := hstep [TokenInfo.directive (lineno + 1) (rest1.take (cpos - 2)),
          TokenInfo.text (lineno + 1) (rest1.drop cpos)]
        rw [List.cons_append, List.singleton_append] at this
        exact this hout
      · exact CT.directive _ _ _ _ _ _ hCT2
      · rw [renderToks_dir_text, hrender2]
        conv_rhs => rw [hline]

lemma joinNl_pair (x y : List Char) : joinNl [x, y] = x ++ '\n' :: y := rfl

lemma joinNl_cons (x : List Char) (xs : List (List Char)) (h : xs ≠ []) :
    joinNl (x :: xs) = x ++ '\n' :: joinNl xs := by
  cases xs with
  | nil => exact absurd rfl h
  | cons y ys => rfl

lemma joinNl_append (xs ys : List (List Char)) (hx : xs ≠ []) (hy : ys ≠ []) :
    joinNl (xs ++ ys) = joinNl xs ++ '\n' :: joinNl ys := by
  induction xs with
  | nil => exact absurd rfl hx
  | cons x t ih =>
    cases t with
    | nil =>
      rw [List.singleton_append, joinNl_cons x ys hy]
      rfl
    | cons z zs =>
      rw [List.cons_append, joinNl_cons x ((z :: zs) ++ ys) (by simp),
        joinNl_cons x (z :: zs) (by simp), ih (by simp)]
      simp

lemma dumpsEntries_nil (level : Nat) : dumpsEntries [] level = [] := by
  simp [dumpsEntries]

lemma dumpsEntries_ne_nil (c : OrgNode) (cs : List OrgNode) (level : Nat) :
    dumpsEntries (c :: cs) level ≠ [] := by
  rcases c with ⟨f, kids⟩ | ⟨v, kids⟩ | ⟨v, kids⟩ | ⟨n, v, kids⟩ <;> simp [dumpsEntries]

lemma dumpsFlat_ne_nil (c : OrgNode) (cs : List OrgNode) (level : Nat) :
    dumpsFlat (c :: cs) level ≠ [] := by
  rcases c with ⟨f, kids⟩ | ⟨v, kids⟩ | ⟨v, kids⟩ | ⟨n, v, kids⟩ <;> simp [dumpsFlat]

lemma dumpsEntries_cons (c : OrgNode) (cs : List OrgNode) (level : Nat) :
    dumpsEntries (c :: cs) level =
      ((if nodeIsHeadline c then List.replicate level '*' ++ [' '] else []) ++ strNode c) ::
      ((if (nodeChildren c).isEmpty then []
        else [joinNl (dumpsEntries (nodeChildren c) (level + 1))]) ++
        dumpsEntries cs level) := by
  rcases c with ⟨f, kids⟩ | ⟨v, kids⟩ | ⟨v, kids⟩ | ⟨n, v, kids⟩ <;>
    simp [dumpsEntries, nodeIsHeadline, nodeChildren, strNode]

lemma dumpsFlat_cons (c : OrgNode) (cs : List OrgNode) (level : Nat) :
    dumpsFlat (c :: cs) level =
      ((if nodeIsHeadline c then List.replicate level '*' ++ [' '] else []) ++ strNode c) ::
      (dumpsFlat (nodeChildren c) (level + 1) ++ dumpsFlat cs level) := by
  rcases c with ⟨f, kids⟩ | ⟨v, kids⟩ | ⟨v, kids⟩ | ⟨n, v, kids⟩ <;>
    simp [dumpsFlat, nodeIsHeadline, nodeChildren, strNode]

lemma dumps_flatten_aux (M : Nat) : ∀ (cs : List OrgNode), sizeOf cs ≤ M →
    ∀ level, joinNl (dumpsEntries cs level) = joinNl (dumpsFlat cs level) := by
  induction M with
  | zero =>
    intro cs hM
    rcases cs with _ | ⟨c, cs⟩
    · intro level; rw [dumpsEntries_nil, dumpsFlat_nil]
    · exfalso
      have hs := List.cons.sizeOf_spec c cs
      omega
  | succ M ih =>
    intro cs hM level
    rcases cs with _ | ⟨c, cs⟩
    · rw [dumpsEntries_nil, dumpsFlat_nil]
    have hkids : sizeOf (nodeChildren c) ≤ M := by
      rcases c with ⟨f, kids⟩ | ⟨v, kids⟩ | ⟨v, kids⟩ | ⟨n, v, kids⟩ <;>
        simp [nodeChildren] at hM ⊢ <;> omega
    have hcs : sizeOf cs ≤ M := by
      rcases c with ⟨f, kids⟩ | ⟨v, kids⟩ | ⟨v, kids⟩ | ⟨n, v, kids⟩ <;>
        simp at hM ⊢ <;> omega
    rw [dumpsEntries_cons, dumpsFlat_cons]
    by_cases hK : (nodeChildren c).isEmpty
    · have hKnil : nodeChildren c = [] := by simpa [List.isEmpty_iff] using hK
      rw [if_pos hK, List.nil_append, hKnil, dumpsFlat_nil, List.nil_append]
      rcases cs with _ | ⟨d, ds⟩
      · rw [dumpsEntries_nil, dumpsFlat_nil]
      · rw [joinNl_cons _ _ (dumpsEntries_ne_nil d ds level),
          joinNl_cons _ _ (dumpsFlat_ne_nil d ds level), ih _ hcs level]
    · have hKne : nodeChildren c ≠ [] := by
        intro hx; rw [hx] at hK; simp at hK
      obtain ⟨k0, ks, hks⟩ : ∃ k0 ks, nodeChildren c = k0 :: ks := by
        rcases hKx : nodeChildren c with _ | ⟨k0, ks⟩
        · exact absurd hKx hKne
        · exact ⟨k0, ks, rfl⟩
      rw [if_neg hK]
      rcases cs with _ | ⟨d, ds⟩
      · rw [dumpsEntries_nil, dumpsFlat_nil, List.append_nil, List.append_nil]
        rw [joinNl_pair]
        rw [joinNl_cons _ _ (by rw [hks]; exact dumpsFlat_ne_nil k0 ks (level + 1))]
        rw [ih _ hkids (level + 1)]
      · rw [List.singleton_append]
        rw [joinNl_cons _ _ (by simp),
          joinNl_cons _ _ (dumpsEntries_ne_nil d ds level)]
        rw [joinNl_cons _ _ (by
              intro hx
              rcases List.append_eq_nil.mp hx with ⟨h1, -⟩
              rw [hks] at h1
              exact dumpsFlat_ne_nil k0 ks (level + 1) h1)]
        rw [joinNl_append _ _ (by rw [hks]; exact dumpsFlat_ne_nil k0 ks (level + 1))
            (dumpsFlat_ne_nil d ds level)]
        rw [ih _ hkids (level + 1), ih _ hcs level]

lemma dumps_flatten (cs : List OrgNode) (level : Nat) :
    dumps cs level = joinNl (dumpsFlat cs level) := by
  unfold dumps
  exact dumps_flatten_aux (sizeOf cs) cs (le_refl _) level

/-! ## Claim theorems -/

/-- C1 (counterexample): on the input lines `"* Top"`, `"** Sub"`, `"text1"`,
`"* Next"` the tokenizer emits TWO SubtreeClose (HLEXIT) tokens between the
`text1` Text token and the `Next` Heading token — one per abandoned subtree,
the level-1 `Top` subtree included — so the number of closing signals for a
descent from level k to level j is not (k − j), and "exactly one closing
signal between text1 and Next" is false. -/
theorem C1_counterexample :
    tokenizeLines ["* Top".toList, "** Sub".toList, "text1".toList, "* Next".toList] 0 0 =
      .ok [.headline 1 ("Top".toList), .headline 2 ("Sub".toList), .text 3 ("text1".toList),
           .hlexit 4, .hlexit 4, .headline 4 ("Next".toList)] ∧
    ¬ (List.countP isHlexitTok
        [TokenInfo.headline 1 ("Top".toList), .headline 2 ("Sub".toList),
         .text 3 ("text1".toList), .hlexit 4, .hlexit 4,
         .headline 4 ("Next".toList)] = 1) :=
  ⟨rfl, by decide⟩

/-- C1 (amended): a heading line whose marker-run length r does not exceed the
tokenizer's current level k (new level j = r) emits exactly (k − j) + 1
SubtreeClose tokens and then the Heading token: one close per abandoned
subtree, including the subtree at the new level j itself; in the concrete
example, two closing signals are emitted between `text1` and `Next`. -/
theorem C1_descent_closes (lineno level r : Nat) (buf : List Char)
    (hr : starRun buf = r) (hhead : buf.head? = some '*')
    (hws : ∃ c, buf.get? r = some c ∧ pyIsSpace c = true) (hle : r ≤ level) :
    lineTokens lineno level buf =
      .ok ⟨List.replicate (level - r + 1) (.hlexit lineno) ++
           [.headline lineno (buf.drop (skipSpace buf r))], r⟩ := by
  subst hr
  obtain ⟨c, hc, hcws⟩ := hws
  exact lineTokens_heading_le lineno level buf c hhead hc hcws hle

/-- Witness for C1_descent_closes: the line `"* Next"` at level 2 emits two
HLEXIT tokens, then the Heading token, and leaves the level at 1. -/
theorem C1_descent_closes_witness :
    lineTokens 4 2 ("* Next".toList) =
      .ok ⟨[.hlexit 4, .hlexit 4, .headline 4 ("Next".toList)], 1⟩ :=
  C1_descent_closes 4 2 1 ("* Next".toList) rfl rfl ⟨' ', rfl, rfl⟩ (by decide)

/-- C2 (code bug): the single-character line `"#"` does not yield a token —
the guard `bufpos < buflen + 3` on line 325 never fails, so `buf[1]` is read
out of range and the tokenizer (and with it the whole parse) raises an
IndexError instead of degrading to a Comment token. -/
theorem C2_hash_line_crash :
    tokenizeLines [['#']] 0 0 = Except.error () ∧
    parseOrg [['#']] = Except.error () :=
  ⟨rfl, rfl⟩

/-- C3: a heading line whose run keeps or lowers the level emits all its
SubtreeClose tokens first and exactly one Heading token last — the stacked
hold buffer is drained in pop-from-the-end order, which reverses the
heading-first push order into closes-first emission. -/
theorem C3_closes_first (lineno level r : Nat) (buf : List Char)
    (hr : starRun buf = r) (hhead : buf.head? = some '*')
    (hws : ∃ c, buf.get? r = some c ∧ pyIsSpace c = true) (hle : r ≤ level) :
    ∃ out n v, lineTokens lineno level buf = .ok out ∧
      out.toks = List.replicate n (TokenInfo.hlexit lineno) ++
        [TokenInfo.headline lineno v] := by
  subst hr
  obtain ⟨c, hc, hcws⟩ := hws
  exact ⟨_, level - starRun buf + 1, _,
    lineTokens_heading_le lineno level buf c hhead hc hcws hle, rfl⟩

/-- Witness for C3_closes_first: the line `"** Sub"` at level 3. -/
theorem C3_closes_first_witness :
    ∃ out n v, lineTokens 7 3 ("** Sub".toList) = .ok out ∧
      out.toks = List.replicate n (TokenInfo.hlexit 7) ++
        [TokenInfo.headline 7 v] :=
  C3_closes_first 7 3 2 ("** Sub".toList) rfl rfl ⟨' ', rfl, rfl⟩ (by decide)

/-- C4: when a heading line's marker-run length r is compared against the
current level, the new level is level + 1 whenever r exceeds it (however much
larger r is), exactly r when r is smaller, and unchanged when equal; hence it
never grows by more than one per heading. -/
theorem C4_level_law (lineno level r : Nat) (buf : List Char)
    (hr : starRun buf = r) (hhead : buf.head? = some '*')
    (hws : ∃ c, buf.get? r = some c ∧ pyIsSpace c = true) :
    ∃ out, lineTokens lineno level buf = .ok out ∧
      (level < r → out.level = level + 1) ∧
      (r < level → out.level = r) ∧
      (r = level → out.level = level) ∧
      out.level ≤ level + 1 := by
  subst hr
  obtain ⟨c, hc, hcws⟩ := hws
  rcases Nat.lt_or_ge level (starRun buf) with hgt | hle
  · refine ⟨_, lineTokens_heading_gt lineno level buf c hhead hc hcws hgt, ?_, ?_, ?_, ?_⟩ <;>
      simp <;> omega
  · refine ⟨_, lineTokens_heading_le lineno level buf c hhead hc hcws hle, ?_, ?_, ?_, ?_⟩ <;>
      simp <;> omega

/-- Witness for C4_level_law: the line `"*** Deep"` at level 0 is clamped to
level 1. -/
theorem C4_level_law_witness :
    ∃ out, lineTokens 1 0 ("*** Deep".toList) = .ok out ∧
      (0 < 3 → out.level = 0 + 1) ∧
      (3 < 0 → out.level = 3) ∧
      (3 = 0 → out.level = 0) ∧
      out.level ≤ 0 + 1 :=
  C4_level_law 1 0 3 ("*** Deep".toList) rfl rfl ⟨' ', rfl, rfl⟩

/-- C5 (counterexample): the comment line `"#  x"` (two spaces after the
marker) parses and serializes to `"# x"` — the tokenizer strips ALL the
whitespace after the marker, which neither trailing-whitespace trimming nor
tag-group re-joining accounts for, so the round trip does not reproduce the
input on this recognized (comment) line. -/
theorem C5_counterexample :
    minimalOrgDumps ["#  x".toList] 1 = .ok ("# x".toList) ∧
    ¬ ("# x".toList = "#  x".toList) := by
  refine ⟨?_, by decide⟩
  have h1 : tokenizeLines ["#  x".toList] 0 0 = .ok [.comment 1 ['x']] := rfl
  unfold minimalOrgDumps parseOrg
  rw [h1]
  dsimp only
  have h2 : parseBlock 2 [TokenInfo.comment 1 ['x']] none =
      ([OrgNode.commentNode ['x'] []], []) := rfl
  simp only [List.length_cons, List.length_nil, h2]
  rw [dumps_flatten, dumpsFlat_commentNode, dumpsFlat_nil]
  rfl

/-- C5 (amended): for inputs whose lines are in the canonical recognized
subset — trailing whitespace already trimmed, exactly one space after the
comment marker and the directive colon with non-blank content, heading levels
deeper by at most one, heading titles rendering back to themselves (keyword,
priority and tag spacing already normalized) — serializing the parsed tree
starting at depth 1 reproduces the input text exactly, for all four node
kinds. -/
theorem C5_canonical_roundtrip (lines : List (List Char))
    (h : canonLines 0 lines = true) :
    minimalOrgDumps lines 1 = .ok (joinNl lines) := by
  obtain ⟨toks, htoks, hCT, hrender⟩ := tokenize_canon lines 0 0 h
  have hp := parse_render toks.length toks (le_refl _) 0 (toks.length + 1) hCT (by omega)
  rcases hp with ⟨hrest, heq⟩ | ⟨lvl2, hl2, -⟩
  · unfold minimalOrgDumps parseOrg
    rw [htoks]
    dsimp only
    rw [dumps_flatten, ← heq, hrender]
  · cases hl2

/-- Witness for C5_canonical_roundtrip: a document exercising all four node
kinds round-trips exactly. -/
theorem C5_canonical_roundtrip_witness :
    canonLines 0 ["* Top".toList, "** Sub".toList, "text1".toList, "* Next".toList,
      "#+NAME: foo".toList, "# note".toList] = true ∧
    minimalOrgDumps ["* Top".toList, "** Sub".toList, "text1".toList, "* Next".toList,
      "#+NAME: foo".toList, "# note".toList] 1 =
      .ok (joinNl ["* Top".toList, "** Sub".toList, "text1".toList, "* Next".toList,
        "#+NAME: foo".toList, "# note".toList]) :=
  ⟨by decide, C5_canonical_roundtrip _ (by decide)⟩

/-- C7: every Directive token in the token stream is immediately followed by
a Text token with the same line number (first conjunct, over the whole
stream), and that Text token carries the trimmed remainder of the line after
the colon found by the directive scan (second conjunct, per line). -/
theorem C7_directive_paired :
    (∀ (lines : List (List Char)) (level lineno : Nat) (toks : List TokenInfo),
      tokenizeLines lines level lineno = .ok toks →
      ∀ i ln n, toks.get? i = some (.directive ln n) →
        ∃ v, toks.get? (i + 1) = some (.text ln v)) ∧
    (∀ (lineno level : Nat) (buf : List Char) (out : LineOut),
      lineTokens lineno level buf = .ok out →
      ∀ i ln n, out.toks.get? i = some (.directive ln n) →
        ∃ cpos, pyFindFrom buf ':' 2 = some cpos ∧
          out.toks.get? (i + 1) = some (.text lineno (pyStrip (buf.drop (cpos + 1))))) := by
  constructor
  · exact tokenizeLines_pairing
  · intro lineno level buf out h i ln n hd
    obtain ⟨_, cpos, hfind, _, _, htext⟩ := lineTokens_pairing lineno level buf out h i ln n hd
    exact ⟨cpos, hfind, htext⟩

/-- Witness for C7_directive_paired on the line `"#+NAME: foo"`. -/
theorem C7_directive_paired_witness :
    (∃ v, [TokenInfo.directive 1 ("NAME".toList), TokenInfo.text 1 ("foo".toList)].get? 1 =
      some (TokenInfo.text 1 v)) ∧
    (∃ cpos, pyFindFrom ("#+NAME: foo".toList) ':' 2 = some cpos ∧
      [TokenInfo.directive 1 ("NAME".toList), TokenInfo.text 1 ("foo".toList)].get? 1 =
        some (TokenInfo.text 1 (pyStrip (("#+NAME: foo".toList).drop (cpos + 1))))) :=
  ⟨C7_directive_paired.1 ["#+NAME: foo".toList] 0 0
      [TokenInfo.directive 1 ("NAME".toList), TokenInfo.text 1 ("foo".toList)] rfl 0 1
      ("NAME".toList) rfl,
   C7_directive_paired.2 1 0 ("#+NAME: foo".toList)
      ⟨[TokenInfo.directive 1 ("NAME".toList), TokenInfo.text 1 ("foo".toList)], 0⟩ rfl 0 1
      ("NAME".toList) rfl⟩

/-- C8: a line starting with the comment marker and the directive sigil whose
candidate control word (between the sigil and the first colon at or after
position 2) contains a lowercase letter, or which has no such colon at all,
is tokenized as a single Comment token, never as a Directive. -/
theorem C8_bad_ctl_word_comment (lineno level : Nat) (rest : List Char)
    (hbad : pyFindFrom ('#' :: '+' :: rest) ':' 2 = none ∨
            ∃ cpos, pyFindFrom ('#' :: '+' :: rest) ':' 2 = some cpos ∧
              ∃ c, c ∈ (('#' :: '+' :: rest).drop 2).take (cpos - 2) ∧ 'a' ≤ c ∧ c ≤ 'z') :
    ∃ v, lineTokens lineno level ('#' :: '+' :: rest) =
      .ok ⟨[.comment lineno v], level⟩ := by
  refine ⟨('+' :: rest).dropWhile pyIsSpace, ?_⟩
  apply lineTokens_comment
  rcases hbad with h | ⟨cpos, hfind, c, hc, hlo, hhi⟩
  · exact Or.inr (Or.inl h)
  · exact Or.inr (Or.inr ⟨cpos, hfind, isCtlWord_false_of_lower _ _ _ c hc hlo⟩)

/-- Witness for C8_bad_ctl_word_comment: `"#+name: foo"` (lowercase control
word) becomes a comment. -/
theorem C8_bad_ctl_word_comment_witness :
    ∃ v, lineTokens 1 0 ('#' :: '+' :: ("name: foo".toList)) =
      .ok ⟨[.comment 1 v], 0⟩ :=
  C8_bad_ctl_word_comment 1 0 ("name: foo".toList)
    (Or.inr ⟨6, by decide, 'n', by decide, by decide, by decide⟩)

/-- C9 (counterexample): the comment line `"#  x"` (two spaces) yields a
Comment token whose value is `"x"`, not the `" x"` the claim predicts
(remainder after the marker and a single space, further whitespace
preserved). -/
theorem C9_counterexample :
    tokenizeLines ["#  x".toList] 0 0 = .ok [.comment 1 ['x']] ∧
    ¬ ((['x'] : List Char) = [' ', 'x']) :=
  ⟨rfl, by decide⟩

/-- C9 (amended): the Comment token's value is the remainder of the line
after removing the marker and ALL following whitespace characters — the
skip-space loop runs to the first non-whitespace character, not at most one
space. -/
theorem C9_comment_value (lineno level : Nat) (c : Char) (rest : List Char)
    (hnotdir : c ≠ '+' ∨ pyFindFrom ('#' :: c :: rest) ':' 2 = none ∨
        ∃ cpos, pyFindFrom ('#' :: c :: rest) ':' 2 = some cpos ∧
          isCtlWord ('#' :: c :: rest) 2 cpos = false) :
    lineTokens lineno level ('#' :: c :: rest) =
      .ok ⟨[.comment lineno ((c :: rest).dropWhile pyIsSpace)], level⟩ :=
  lineTokens_comment lineno level c rest hnotdir

/-- Witness for C9_comment_value on the line `"#  x"`. -/
theorem C9_comment_value_witness :
    lineTokens 1 0 ('#' :: ' ' :: (' ' :: ['x'])) =
      .ok ⟨[.comment 1 ((' ' :: ' ' :: ['x']).dropWhile pyIsSpace)], 0⟩ :=
  C9_comment_value 1 0 ' ' (' ' :: ['x']) (Or.inl (by decide))

/-- C10: a line whose directive sigil is immediately followed by a colon is
accepted as a directive with the empty control word (the check is vacuous on
an empty range), paired with a Text token holding the trimmed remainder after
the colon — it is not degraded to a comment. -/
theorem C10_empty_ctl_word_directive (lineno level : Nat) (rest : List Char) :
    lineTokens lineno level ('#' :: '+' :: ':' :: rest) =
      .ok ⟨[.directive lineno [], .text lineno (pyStrip rest)], level⟩ := by
  have hfind : pyFindFrom ('#' :: '+' :: ':' :: rest) ':' 2 = some 2 := by
    simp [pyFindFrom]
  simp [lineTokens, hfind, isCtlWord]
